import Mathlib

/-!
# Verification of the currency-converter core (`src/app.py`)

Shallow embedding of the logical core of `hariapk/currency-converter`:
the fallback rate table, `supported_currencies`, `get_rates` and `convert`.

Modelling choices:
* Python `float` values are embedded as exact rationals `ℚ` (the code does
  plain `/` and `*`; claims about floating-point rounding are read over
  exact arithmetic, as the spec's own properties allow).
* A Python `dict` is an association list with unique keys; `dict` lookup is
  `List.lookup`.
* Python's `str.upper()` is `upper`, uppercasing each character (ASCII).
* The outcome of the live HTTP fetch inside `get_rates` is made an explicit
  parameter (`FetchResult`), since the network is outside the program text;
  every non-success outcome is one of the constructors the code's branches
  distinguish.
* `convert`'s `raise ValueError("Unsupported currency")` is `Except.error`.
-/

namespace CurrencyApp

/-- A rate table: Python `Dict[str, float]` as an association list over `ℚ`. -/
abbrev RateTable := List (String × ℚ)

/-- Model of Python `str.upper()`: uppercase each character (ASCII letters). -/
def upper (s : String) : String := String.mk (s.data.map Char.toUpper)

/-- The constant `FALLBACK_RATES` (app.py lines 18–26), rates relative to USD. -/
def FALLBACK_RATES : RateTable :=
  [("USD", 1), ("EUR", 92/100), ("GBP", 80/100), ("JPY", 150),
   ("INR", 83), ("CAD", 135/100), ("AUD", 155/100)]

/-- Lexicographic comparison of char lists by code point: Python string `<=`. -/
def charsLe : List Char → List Char → Bool
  | [], _ => true
  | _ :: _, [] => false
  | a :: as, b :: bs =>
    if a < b then true
    else if b < a then false
    else charsLe as bs

/-- Python string `<=` (lexicographic by code point). -/
def strLe (a b : String) : Bool := charsLe a.data b.data

/-- Strict lexicographic comparison of char lists: Python string `<`. -/
def charsLt : List Char → List Char → Bool
  | _, [] => false
  | [], _ :: _ => true
  | a :: as, b :: bs =>
    if a < b then true
    else if b < a then false
    else charsLt as bs

/-- Python string `<` (lexicographic by code point). -/
def strLt (a b : String) : Bool := charsLt a.data b.data

/-- Insert a string into a `strLe`-sorted list, keeping it sorted. -/
def insertSorted (x : String) : List String → List String
  | [] => [x]
  | y :: ys => if strLe x y then x :: y :: ys else y :: insertSorted x ys

/-- Model of Python's `sorted` on a list of strings (insertion sort by `≤`). -/
def sortKeys (l : List String) : List String := l.foldr insertSorted []

/-- Model of `supported_currencies()` (app.py lines 29–30):
`sorted(FALLBACK_RATES.keys())`. -/
def supported_currencies : List String :=
  sortKeys (FALLBACK_RATES.map Prod.fst)

/-- Outcome of the live-fetch attempt inside `get_rates` (app.py lines 40–51):
the failure modes the code's branches distinguish, or a parsed `rates` dict. -/
inductive FetchResult where
  | noRequests
  | exn
  | badStatus
  | badPayload
  | okRates (rates : List (String × ℚ))
deriving DecidableEq

/-- The reference rate of the fallback path (app.py lines 54–57):
`base_rate = FALLBACK_RATES.get(base)`, and if that is `None`,
`base_rate = FALLBACK_RATES["USD"]`. `base` is already uppercased. -/
def baseRateFor (base : String) : ℚ :=
  match FALLBACK_RATES.lookup base with
  | some r => r
  | none => (FALLBACK_RATES.lookup "USD").getD 0

/-- The fallback table of `get_rates` (app.py lines 53–59):
`{k: v / base_rate for k, v in FALLBACK_RATES.items()}`. -/
def fallbackRates (base : String) : RateTable :=
  FALLBACK_RATES.map (fun p => (p.1, p.2 / baseRateFor base))

/-- Model of `get_rates(base)` (app.py lines 33–59), the live-fetch outcome
passed in.
An `okRates` with an empty dict falls through to the fallback, exactly as the
truthiness test `if isinstance(rates, dict) and rates:` does. -/
def get_rates (fetch : FetchResult) (base : String) : RateTable :=
  let b := upper base
  match fetch with
  | .okRates rs =>
      if rs.isEmpty then fallbackRates b
      else rs.map (fun p => (upper p.1, p.2))
  | _ => fallbackRates b

/-- Model of `convert(amount, from_currency, to_currency, rates)`
(app.py lines 62–77).
`None` amount is `none`; `ValueError("Unsupported currency")` is the error. -/
def convert (amount : Option ℚ) (from_currency to_currency : String)
    (rates : RateTable) : Except String ℚ :=
  match amount with
  | none => Except.ok 0
  | some a =>
    let f := upper from_currency
    let t := upper to_currency
    if f = t then Except.ok a
    else
      match rates.lookup f, rates.lookup t with
      | some rf, some rt => Except.ok (a / rf * rt)
      | _, _ => Except.error "Unsupported currency"

/-! ## Helper lemmas -/

/-- Packing a valid code point and unpacking it is the identity. -/
theorem toNat_ofNat_valid {n : Nat} (h : n.isValidChar) :
    (Char.ofNat n).toNat = n := by
  simp [Char.ofNat, dif_pos h, Char.ofNatAux, Char.toNat, UInt32.toNat,
    BitVec.toNat_ofNatLt]

/-- Uppercasing a character twice is the same as once. -/
theorem toUpper_idem (c : Char) : c.toUpper.toUpper = c.toUpper := by
  simp only [Char.toUpper]
  by_cases h : c.toNat ≥ 97 ∧ c.toNat ≤ 122
  · rw [if_pos h, toNat_ofNat_valid (Or.inl (by omega)), if_neg (by omega)]
  · rw [if_neg h, if_neg h]

/-- Uppercasing a string twice is the same as once. -/
theorem upper_idem (s : String) : upper (upper s) = upper s := by
  unfold upper
  simp only [List.map_map]
  congr 1
  exact List.map_congr_left (fun c _ => toUpper_idem c)

/-- A successful lookup names a pair of the list. -/
theorem lookup_mem {l : RateTable} {k : String} {v : ℚ}
    (h : l.lookup k = some v) : (k, v) ∈ l := by
  induction l with
  | nil => simp at h
  | cons p t ih =>
    obtain ⟨a, b⟩ := p
    rw [List.lookup_cons] at h
    split at h
    · next heq =>
      obtain rfl : k = a := eq_of_beq heq
      cases h
      exact List.mem_cons_self _ _
    · exact List.mem_cons_of_mem _ (ih h)

/-- Lookup commutes with dividing every value of an association list. -/
theorem lookup_map_div (r : ℚ) (l : RateTable) (k : String) :
    (l.map (fun p => (p.1, p.2 / r))).lookup k = (l.lookup k).map (· / r) := by
  induction l with
  | nil => rfl
  | cons p t ih =>
    obtain ⟨a, b⟩ := p
    simp only [List.map_cons, List.lookup_cons]
    cases hk : k == a
    · simp [hk, ih]
    · simp [hk]

/-- Dividing every value leaves the key list unchanged. -/
theorem keys_map_div (r : ℚ) (l : RateTable) :
    (l.map (fun p => (p.1, p.2 / r))).map Prod.fst = l.map Prod.fst := by
  simp [List.map_map]

/-- Every fallback rate is positive. -/
theorem FALLBACK_RATES_pos : ∀ p ∈ FALLBACK_RATES, (0 : ℚ) < p.2 := by
  intro p hp
  simp only [FALLBACK_RATES, List.mem_cons, List.not_mem_nil, or_false] at hp
  rcases hp with rfl | rfl | rfl | rfl | rfl | rfl | rfl <;> norm_num

/-- USD is in the fallback table with rate 1. -/
theorem lookup_USD : FALLBACK_RATES.lookup "USD" = some 1 := by rfl

/-- Fetch outcomes on which `get_rates` takes the fallback path: every
failure constructor, and a parsed `rates` dict that is empty (falsy). -/
def fallsBack : FetchResult → Prop
  | .okRates rs => rs = []
  | _ => True

/-- On every fallback-triggering fetch outcome, `get_rates` returns the
fallback table computed from the uppercased base. -/
theorem get_rates_fallsBack {fetch : FetchResult} (h : fallsBack fetch)
    (base : String) : get_rates fetch base = fallbackRates (upper base) := by
  cases fetch with
  | okRates rs =>
    have hrs : rs = [] := h
    subst hrs
    rfl
  | noRequests => rfl
  | exn => rfl
  | badStatus => rfl
  | badPayload => rfl

/-- The reference rate of the fallback path is positive. -/
theorem baseRateFor_pos (base : String) : 0 < baseRateFor base := by
  unfold baseRateFor
  split
  · next r hr => exact FALLBACK_RATES_pos _ (lookup_mem hr)
  · rw [lookup_USD]
    norm_num

/-- The fallback table keeps exactly the fallback keys, in order. -/
theorem fallbackRates_keys (base : String) :
    (fallbackRates base).map Prod.fst =
      ["USD", "EUR", "GBP", "JPY", "INR", "CAD", "AUD"] := by
  unfold fallbackRates
  rw [keys_map_div]
  rfl

/-- Every value of the fallback table is positive. -/
theorem fallbackRates_pos (base : String) :
    ∀ p ∈ fallbackRates base, (0 : ℚ) < p.2 := by
  intro p hp
  unfold fallbackRates at hp
  obtain ⟨q, hq, rfl⟩ := List.mem_map.mp hp
  exact div_pos (FALLBACK_RATES_pos _ hq) (baseRateFor_pos base)

/-- Looking up a key in the fallback table divides the original entry by the
reference rate. -/
theorem fallbackRates_lookup (base k : String) :
    (fallbackRates base).lookup k =
      (FALLBACK_RATES.lookup k).map (· / baseRateFor base) := by
  unfold fallbackRates
  exact lookup_map_div _ _ _

/-! ## Claims -/

/-- C1: for every amount `a`, rate table `R`, and codes `F`, `T` that are
distinct after uppercasing and both present in `R`, `convert` returns exactly
`(a / R[F]) * R[T]`, with no rounding. -/
theorem C1_convert_formula (a : ℚ) (F T : String) (R : RateTable) (rf rt : ℚ)
    (hne : upper F ≠ upper T)
    (hf : R.lookup (upper F) = some rf) (ht : R.lookup (upper T) = some rt) :
    convert (some a) F T R = Except.ok (a / rf * rt) := by
  simp [convert, hne, hf, ht]

/-- Witness for C1: the spec's own example, `convert(100, "USD", "EUR", R)`
with `R["USD"] = 1`, `R["EUR"] = 9/10` gives `90`. -/
theorem C1_witness :
    convert (some 100) "USD" "EUR" [("USD", 1), ("EUR", 9/10), ("GBP", 8/10)]
      = Except.ok (100 / 1 * (9/10)) :=
  C1_convert_formula 100 "USD" "EUR" _ 1 (9/10) (by decide) (by rfl) (by rfl)

/-- C2: when the two codes agree after uppercasing, `convert` returns the
amount unchanged, for every rate table — the table is never consulted. -/
theorem C2_convert_identity (x : ℚ) (c₁ c₂ : String) (R : RateTable)
    (h : upper c₁ = upper c₂) :
    convert (some x) c₁ c₂ R = Except.ok x := by
  simp [convert, h]

/-- Witness for C2: `convert(50, "usd", "USD", ∅) = 50` with an empty table,
so the currency need not be a key of the table. -/
theorem C2_witness : convert (some 50) "usd" "USD" [] = Except.ok 50 :=
  C2_convert_identity 50 "usd" "USD" [] (by decide)

/-- C3: on the non-identity path, `convert` fails iff one of the two codes is
absent from the table, and the only error it produces is
`"Unsupported currency"` — under positive rates no other error exists. -/
theorem C3_convert_error_iff (a : ℚ) (F T : String) (R : RateTable)
    (hne : upper F ≠ upper T) (hpos : ∀ p ∈ R, (0 : ℚ) < p.2) :
    ((∃ e, convert (some a) F T R = Except.error e) ↔
      (R.lookup (upper F) = none ∨ R.lookup (upper T) = none)) ∧
    (∀ e, convert (some a) F T R = Except.error e →
      e = "Unsupported currency") := by
  cases hf : R.lookup (upper F) with
  | none => cases ht : R.lookup (upper T) <;> simp [convert, hne, hf, ht]
  | some rf => cases ht : R.lookup (upper T) <;> simp [convert, hne, hf, ht]

/-- Witness for C3: the spec's example `convert(10, "USD", "XXX", {"USD": 1})`
fails (with `"XXX"` absent from the table). -/
theorem C3_witness :
    ∃ e, convert (some 10) "USD" "XXX" [("USD", 1)] = Except.error e :=
  (C3_convert_error_iff 10 "USD" "XXX" [("USD", 1)] (by decide)
    (by
      intro p hp
      simp only [List.mem_cons, List.not_mem_nil, or_false] at hp
      subst hp
      norm_num)).1.mpr (Or.inr (by rfl))

/-- C4: the fallback path of `get_rates` returns `FALLBACK_RATES` with every
entry divided by the reference rate — the fallback rate of the uppercased
base if present, USD's fallback rate otherwise — and maps any base present
in the fallback table to exactly `1`. -/
theorem C4_fallback_table (base : String) (fetch : FetchResult)
    (hfb : fallsBack fetch) :
    (get_rates fetch base =
      FALLBACK_RATES.map (fun p => (p.1, p.2 /
        (match FALLBACK_RATES.lookup (upper base) with
         | some r => r
         | none => (FALLBACK_RATES.lookup "USD").getD 0)))) ∧
    (∀ r, FALLBACK_RATES.lookup (upper base) = some r →
      (get_rates fetch base).lookup (upper base) = some 1) := by
  rw [get_rates_fallsBack hfb]
  constructor
  · rfl
  · intro r hr
    have hrpos : (0 : ℚ) < r := FALLBACK_RATES_pos _ (lookup_mem hr)
    rw [fallbackRates_lookup, hr]
    have hbr : baseRateFor (upper base) = r := by
      unfold baseRateFor
      rw [hr]
    rw [hbr]
    simp [div_self (ne_of_gt hrpos)]

/-- Witness for C4: on a failed fetch with base `"eur"`, the returned table
maps `"EUR"` to exactly `1`. -/
theorem C4_witness :
    (get_rates .exn "eur").lookup (upper "eur") = some 1 :=
  (C4_fallback_table "eur" .exn trivial).2 (92/100) (by rfl)

/-- C5: round-trip — converting `a` from `X` to `Y` and the result back from
`Y` to `X` with the same positive-rate table returns exactly `a` (over exact
rational arithmetic). -/
theorem C5_round_trip (a : ℚ) (X Y : String) (R : RateTable) (rx ry : ℚ)
    (hpos : ∀ p ∈ R, (0 : ℚ) < p.2)
    (hx : R.lookup (upper X) = some rx) (hy : R.lookup (upper Y) = some ry) :
    ∃ b, convert (some a) X Y R = Except.ok b ∧
      convert (some b) Y X R = Except.ok a := by
  have hrx : rx ≠ 0 := ne_of_gt (hpos _ (lookup_mem hx))
  have hry : ry ≠ 0 := ne_of_gt (hpos _ (lookup_mem hy))
  by_cases h : upper X = upper Y
  · exact ⟨a, by simp [convert, h], by simp [convert, h.symm]⟩
  · refine ⟨a / rx * ry, ?_, ?_⟩
    · simp [convert, h, hx, hy]
    · have h' : upper Y ≠ upper X := fun hh => h hh.symm
      simp only [convert, if_neg h', hy, hx]
      congr 1
      field_simp
      ring

/-- Witness for C5: `100` USD → EUR → USD with the table
`{"USD": 1, "EUR": 9/10}` comes back to exactly `100`. -/
theorem C5_witness :
    ∃ b, convert (some 100) "USD" "EUR" [("USD", 1), ("EUR", 9/10)]
        = Except.ok b ∧
      convert (some b) "EUR" "USD" [("USD", 1), ("EUR", 9/10)]
        = Except.ok 100 :=
  C5_round_trip 100 "USD" "EUR" _ 1 (9/10)
    (by
      intro p hp
      simp only [List.mem_cons, List.not_mem_nil, or_false] at hp
      rcases hp with rfl | rfl <;> norm_num)
    (by rfl) (by rfl)

/-- C6: `get_rates` never fails: for every base and every fetch outcome it
returns a table — the live one (keys uppercased, on a non-empty parsed dict),
and on every failure path the fallback-derived table. -/
theorem C6_never_raises (fetch : FetchResult) (base : String) :
    get_rates fetch base = fallbackRates (upper base) ∨
    (∃ rs, fetch = .okRates rs ∧ rs.isEmpty = false ∧
      get_rates fetch base = rs.map (fun p => (upper p.1, p.2))) := by
  cases fetch with
  | okRates rs =>
    cases hrs : rs.isEmpty
    · exact Or.inr ⟨rs, rfl, hrs, by simp [get_rates, hrs]⟩
    · exact Or.inl (by simp [get_rates, hrs])
  | noRequests => exact Or.inl rfl
  | exn => exact Or.inl rfl
  | badStatus => exact Or.inl rfl
  | badPayload => exact Or.inl rfl

/-- C7: `supported_currencies()` is exactly the keys of `FALLBACK_RATES`,
sorted ascending, without duplicates — a sequence of seven codes. -/
theorem C7_supported_currencies :
    supported_currencies = ["AUD", "CAD", "EUR", "GBP", "INR", "JPY", "USD"] ∧
    supported_currencies.Perm (FALLBACK_RATES.map Prod.fst) ∧
    List.Pairwise (fun a b => strLt a b = true) supported_currencies ∧
    supported_currencies.Nodup ∧
    supported_currencies.length = 7 := by
  refine ⟨by rfl, by decide, by decide, by decide, by rfl⟩

/-- C8: a `None` amount makes `convert` return `0` with no error, for every
pair of codes and every table — the null check precedes all validation. -/
theorem C8_null_amount (F T : String) (R : RateTable) :
    convert none F T R = Except.ok 0 := rfl

/-- C9: codes are uppercased before any comparison or lookup, so `convert`
and `get_rates` are unchanged by uppercasing their code arguments. -/
theorem C9_case_insensitive (a : Option ℚ) (x y : String) (R : RateTable)
    (fetch : FetchResult) (b : String) :
    convert a x y R = convert a (upper x) (upper y) R ∧
    get_rates fetch b = get_rates fetch (upper b) := by
  constructor
  · cases a with
    | none => rfl
    | some v => simp [convert, upper_idem]
  · simp [get_rates, upper_idem]

/-- C10: every table the fallback path produces has exactly the seven
fallback keys (uppercase) and only strictly positive values. -/
theorem C10_fallback_invariant (base : String) (fetch : FetchResult)
    (hfb : fallsBack fetch) :
    (get_rates fetch base).map Prod.fst =
      ["USD", "EUR", "GBP", "JPY", "INR", "CAD", "AUD"] ∧
    ∀ p ∈ get_rates fetch base, (0 : ℚ) < p.2 := by
  rw [get_rates_fallsBack hfb]
  exact ⟨fallbackRates_keys _, fallbackRates_pos _⟩

/-- Witness for C10: with an unknown base and no `requests` library, the
returned keys are the seven fallback codes. -/
theorem C10_witness :
    (get_rates .noRequests "XYZ").map Prod.fst =
      ["USD", "EUR", "GBP", "JPY", "INR", "CAD", "AUD"] :=
  (C10_fallback_invariant "XYZ" .noRequests trivial).1

end CurrencyApp
